import Mathlib

/-!
Verification of the Jarvin voice-assistant core against its specification.

This file gives a shallow embedding, in Lean 4, of the parts of the code
that the specification's checked claims are about:

* `backend/listener/live_state.py` — the live-state publisher
  (`set_snapshot`, `set_status`, `wait_next`);
* `backend/util/paths.py` and `backend/core/pipeline.py` — temp-path
  selection for the utterance WAV;
* `audio/wav_io.py` — WAV write / read-back / linear resampling;
* `backend/listener/intents.py` — the shutdown intent matcher;
* `audio/vad/detector.py` and `audio/vad/utils.py` — the noise-gate VAD:
  calibration, derived frame counts and the per-frame state machine.

Modelling conventions: Python floats are modelled as exact rationals (`ℚ`);
all inputs the claims exercise keep the comparisons far from representation
boundaries.  Python ints are `ℤ`/`ℕ` with `int(...)` truncation rendered as
rational floor.  Time, the microphone and the filesystem are passed
explicitly: a generator reading frames becomes a function over the list of
frames actually read, and a blocking wait becomes a function over the list
of states observed at successive condition-variable wake-ups.
-/

namespace Jarvin

/-! ### Live-state publisher (`backend/listener/live_state.py`)

The module-level dict `_state` plus the counter `_seq` become one record.
`ts` values (from `time.monotonic()`) are passed in by the caller. -/

structure LiveState where
  seqCounter : ℕ
  seq : Option ℕ
  ts : Option ℚ
  transcript : Option String
  reply : Option String
  cycleMs : Option ℤ
  utterMs : Option ℤ
  wavPath : Option String
  recording : Bool
  processing : Bool
deriving Repr, DecidableEq

/-- The module's initial state: `_seq = 0`, every `_state` value `None`,
both flags `False`. -/
def initialLiveState : LiveState :=
  ⟨0, none, none, none, none, none, none, none, false, false⟩

/-- `set_snapshot(...)`: bump `_seq`, store it in `_state["seq"]`, replace
the result fields and the timestamp. -/
def set_snapshot (transcript reply : Option String) (cycleMs utterMs : Option ℤ)
    (wavPath : Option String) (now : ℚ) (st : LiveState) : LiveState :=
  { st with
    seqCounter := st.seqCounter + 1
    seq := some (st.seqCounter + 1)
    ts := some now
    transcript := transcript
    reply := reply
    cycleMs := cycleMs
    utterMs := utterMs
    wavPath := wavPath }

/-- `set_status(recording=…, processing=…)`: early-return when both
arguments are `None`; otherwise update the provided flags and `ts`. -/
def set_status (recording processing : Option Bool) (now : ℚ) (st : LiveState) :
    LiveState :=
  if recording = none ∧ processing = none then st
  else
    { st with
      recording := recording.getD st.recording
      processing := processing.getD st.processing
      ts := some now }

/-- A list of `set_status` calls applied in order; used to state that a
whole stretch of status-only traffic leaves `seq` untouched. -/
def applyStatusCalls (calls : List (Option Bool × Option Bool × ℚ)) (st : LiveState) :
    LiveState :=
  calls.foldl (fun s c => set_status c.1 c.2.1 c.2.2 s) st

/-- The loop condition of `wait_next`:
`isinstance(cur_seq, int) and (since is None or cur_seq > since)`. -/
def waitCheck (since : Option ℕ) (st : LiveState) : Bool :=
  match st.seq with
  | none => false
  | some s =>
    match since with
    | none => true
    | some v => decide (v < s)

/-- `wait_next(since, timeout=None)` with the blocking wait made explicit:
`wakes` is the sequence of states the waiter observes at successive
condition-variable wake-ups.  The loop re-checks `waitCheck` at each
wake-up and, with no timeout, never returns otherwise (`none` = still
blocked after the whole wake sequence). -/
def wait_next (since : Option ℕ) (st : LiveState) (wakes : List LiveState) :
    Option LiveState :=
  if waitCheck since st then some st
  else
    match wakes with
    | [] => none
    | w :: ws => wait_next since w ws

/-! ### Temp paths (`backend/util/paths.py`, `backend/core/pipeline.py`) -/

/-- `os.path.join(root, name)` for a relative name (POSIX form); `root` is
the absolute temp directory returned by `ensure_temp_dir()`. -/
def path_join (root name : String) : String := root ++ "/" ++ name

/-- `temp_path(name)`: the deterministic file path `TEMP_DIR/name`. -/
def temp_path (tempRoot name : String) : String := path_join tempRoot name

/-- The WAV path chosen in step 1 of `process_utterance`:
`wav_path = temp_path("live_utt.wav")`.  The call's own inputs (`pcm`,
`sr`) are parameters to show the path does not depend on them, exactly as
in the source. -/
def process_utterance_wav_path (tempRoot : String) (pcm : List ℤ) (sr : ℕ) :
    String := temp_path tempRoot "live_utt.wav"

/-! ### WAV I/O (`audio/wav_io.py`)

A WAV file is modelled at the level the code manipulates it through the
`wave` module: channel count, sample width, frame rate, and the raw data
bytes.  int16 ↔ bytes conversions follow numpy's little-endian
`tobytes`/`frombuffer`. -/

structure WavFile where
  nchannels : ℕ
  sampwidth : ℕ
  framerate : ℕ
  data : List ℕ
deriving Repr, DecidableEq

/-- Little-endian two-byte encoding of an int16 sample
(two's complement, as in `np.ndarray.tobytes` for dtype int16). -/
def int16ToBytes (v : ℤ) : List ℕ :=
  [(v % 65536).toNat % 256, (v % 65536).toNat / 256]

/-- `np.frombuffer(…, dtype=np.int16)`: decode consecutive little-endian
byte pairs as signed 16-bit integers. -/
def bytesToInt16s : List ℕ → List ℤ
  | b0 :: b1 :: rest =>
    (let u := b0 + 256 * b1
     if u < 32768 then (u : ℤ) else (u : ℤ) - 65536) :: bytesToInt16s rest
  | _ => []

/-- `write_wav_int16_mono(path, pcm, sample_rate, None)` — the
`normalize_dbfs is None` branch exercised by the claim, in which `y = pcm`
is written unchanged.  (The `Some` branch scales by
`32767·10^(d/20)/peak`, a float power outside this rational model.)
Writes one channel, sample width 2, the given frame rate, and
`y.tobytes()`. -/
def write_wav_int16_mono (pcm : List ℤ) (sampleRate : ℕ) : WavFile :=
  ⟨1, 2, sampleRate, pcm.flatMap int16ToBytes⟩

/-- Reading the stored samples back: what `wave.open(path, "rb")` followed
by `np.frombuffer(audio_bytes, dtype=np.int16)` yields, with the file's
frame rate. -/
def read_back (f : WavFile) : List ℤ × ℕ := (bytesToInt16s f.data, f.framerate)

/-- Python `round` / `np.round` ties-to-even, used by
`int(round(len(audio) * ratio))` for nonnegative arguments. -/
def roundHalfEven (x : ℚ) : ℤ :=
  let f := ⌊x⌋
  let frac := x - f
  if frac < 1/2 then f
  else if 1/2 < frac then f + 1
  else if f % 2 = 0 then f else f + 1

/-- `np.interp` on the uniform grid `xp = linspace(0, 1, m, endpoint=False)`
(so `xp i = i/m`), evaluated at a single point `x`; clamps outside the
grid as `np.interp` does. -/
def interpUniform (fp : List ℚ) (x : ℚ) : ℚ :=
  let m := fp.length
  if m = 0 then 0
  else if x ≤ 0 then fp.headD 0
  else
    let i := Int.toNat ⌊x * m⌋
    if m ≤ i + 1 then fp.getLastD 0
    else fp.getD i 0 + (x * m - i) * (fp.getD (i + 1) 0 - fp.getD i 0)

/-- `linear_resample(audio, src_hz, dst_hz)`: identity when the rates match
or the input is empty; otherwise sample `np.interp` of the input (placed on
`linspace(0,1,len,endpoint=False)`) at `n = int(round(len·dst/src))` points
`linspace(0,1,n,endpoint=False)`. -/
def linear_resample (audio : List ℚ) (srcHz dstHz : ℕ) : List ℚ :=
  if srcHz = dstHz ∨ audio.length = 0 then audio
  else
    let ratio : ℚ := (dstHz : ℚ) / (srcHz : ℚ)
    let n := Int.toNat (roundHalfEven (audio.length * ratio))
    (List.range n).map fun j => interpUniform audio ((j : ℚ) / n)

/-- `audio.reshape(-1, 2).mean(axis=1)`: average consecutive sample pairs
(stereo downmix). -/
def stereoMean : List ℚ → List ℚ
  | a :: b :: rest => (a + b) / 2 :: stereoMean rest
  | _ => []

/-- `wav_to_float32_mono_16k(path)`: reject non-16-bit files, decode int16
samples and divide by 32768, downmix stereo, and linear-resample to 16 kHz
when the file's rate differs. -/
def wav_to_float32_mono_16k (f : WavFile) : Except String (List ℚ) :=
  if f.sampwidth ≠ 2 then .error "Expected 16-bit PCM"
  else
    let audio := (bytesToInt16s f.data).map fun v : ℤ => (v : ℚ) / 32768
    let audio := if f.nchannels = 2 then stereoMean audio else audio
    let audio :=
      if f.framerate ≠ 16000 then linear_resample audio f.framerate 16000
      else audio
    .ok audio

/-! ### Intent matcher (`backend/listener/intents.py`)

`_SHUTDOWN_HOTWORDS` and `_NEGATIONS` are fixed `re.IGNORECASE` patterns
over essentially-ASCII text.  The embedding lowercases the text (ASCII
case fold, matching `re.IGNORECASE` on these ASCII patterns) and
implements each pattern directly: `\b` at word/non-word transitions
(`\w` = ASCII alphanumeric or underscore here), `\s` the ASCII whitespace
class, greedy `\s*`/`\s+` (complete for these patterns since every
whitespace run is followed by a non-whitespace literal), and
`kill\b.*\bserver\b` as a newline-free scan for a boundary-delimited
`server`. -/

/-- ASCII lowercase fold, as `re.IGNORECASE` applies to these patterns. -/
def toLowerA (c : Char) : Char :=
  if 65 ≤ c.toNat ∧ c.toNat ≤ 90 then Char.ofNat (c.toNat + 32) else c

/-- `\w`: ASCII letter, digit or underscore. -/
def isWordChar (c : Char) : Bool :=
  decide ((97 ≤ c.toNat ∧ c.toNat ≤ 122) ∨ (65 ≤ c.toNat ∧ c.toNat ≤ 90) ∨
    (48 ≤ c.toNat ∧ c.toNat ≤ 57) ∨ c = '_')

/-- `\s`: space, tab, newline, carriage return, vertical tab, form feed. -/
def isSpaceChar (c : Char) : Bool :=
  decide (c = ' ' ∨ c = '\t' ∨ c = '\n' ∨ c = '\r' ∨ c.toNat = 11 ∨ c.toNat = 12)

/-- Match a literal; return the remaining text on success. -/
def matchLit : List Char → List Char → Option (List Char)
  | [], s => some s
  | _ :: _, [] => none
  | c :: p, d :: s => if c = d then matchLit p s else none

/-- Greedy `\s*`: drop a maximal run of whitespace. -/
def wsStar : List Char → List Char
  | [] => []
  | c :: s => if isSpaceChar c then wsStar s else c :: s

/-- Greedy `\s+`: at least one whitespace character. -/
def wsPlus : List Char → Option (List Char)
  | [] => none
  | c :: s => if isSpaceChar c then some (wsStar s) else none

/-- `\b` when the position is just before `s` (a word character starts the
match, so the previous character must not be one, or the match is at the
start of the text). -/
def bdyBefore : Option Char → Bool
  | none => true
  | some c => !isWordChar c

/-- `\b` after a match ending in a word character: end of text or a
non-word character next. -/
def bdyAfter : List Char → Bool
  | [] => true
  | c :: _ => !isWordChar c

/-- Success of a partial match followed by the trailing `\b`. -/
def endB : Option (List Char) → Bool
  | none => false
  | some rest => bdyAfter rest

/-- The `.*\bserver\b` tail of `kill\b.*\bserver\b`: scan forward without
crossing a newline (`.` does not match `\n`), looking for `server` with a
word boundary on each side.  `prev` is the character just before the
current position. -/
def killScan (prev : Char) (s : List Char) : Bool :=
  (!isWordChar prev && endB (matchLit "server".toList s)) ||
    match s with
    | [] => false
    | c :: rest => if c = '\n' then false else killScan c rest

/-- One alternative of `_SHUTDOWN_HOTWORDS` matching exactly at `s`
(the leading `\b` is checked by the caller; the trailing `\b` here). -/
def shutdownAlts (s : List Char) : Bool :=
  endB (((matchLit "shut".toList s).map wsStar).bind (matchLit "down".toList)) ||
  endB (matchLit "shutdown".toList s) ||
  endB (((matchLit "power".toList s).map wsStar).bind (matchLit "off".toList)) ||
  endB (((matchLit "turn".toList s).map wsStar).bind (matchLit "off".toList)) ||
  endB (((matchLit "stop".toList s).bind wsPlus).bind (matchLit "listening".toList)) ||
  endB (((((matchLit "stop".toList s).bind wsPlus).bind (matchLit "the".toList)).bind wsPlus).bind
    (matchLit "server".toList)) ||
  endB (((matchLit "stop".toList s).bind wsPlus).bind (matchLit "server".toList)) ||
  endB (matchLit "exit".toList s) ||
  endB (matchLit "quit".toList s) ||
  endB (matchLit "terminate".toList s) ||
  endB (((matchLit "end".toList s).bind wsPlus).bind (matchLit "session".toList)) ||
  endB (((matchLit "end".toList s).bind wsPlus).bind (matchLit "process".toList)) ||
  endB (((matchLit "end".toList s).bind wsPlus).bind (matchLit "server".toList)) ||
  (match matchLit "kill".toList s with
   | none => false
   | some rest => bdyAfter rest && killScan 'l' rest)

/-- One alternative of `_NEGATIONS` matching exactly at `s`. -/
def negAlts (s : List Char) : Bool :=
  endB (matchLit "don\x27t".toList s) ||
  endB (((matchLit "do".toList s).bind wsPlus).bind (matchLit "not".toList)) ||
  endB (((matchLit "not".toList s).bind wsPlus).bind (matchLit "now".toList)) ||
  endB (matchLit "cancel".toList s) ||
  endB (((matchLit "false".toList s).bind wsPlus).bind (matchLit "alarm".toList))

/-- `re.search`: try the alternatives at every position whose left context
satisfies the leading `\b`. -/
def regexSearch (alts : List Char → Bool) : Option Char → List Char → Bool
  | prev, [] => bdyBefore prev && alts []
  | prev, c :: rest =>
    (bdyBefore prev && alts (c :: rest)) || regexSearch alts (some c) rest

/-- ASCII-lowercased text. -/
def lowerText (t : List Char) : List Char := t.map toLowerA

/-- `_SHUTDOWN_HOTWORDS.search(text)` as a Boolean. -/
def hasShutdownHotword (t : List Char) : Bool :=
  regexSearch shutdownAlts none (lowerText t)

/-- `_NEGATIONS.search(text)` as a Boolean. -/
def hasNegation (t : List Char) : Bool :=
  regexSearch negAlts none (lowerText t)

/-- `intent_shutdown(text)`: `False` on any negation hit, else the hotword
search result. -/
def intent_shutdown (t : List Char) : Bool :=
  if hasNegation t then false else hasShutdownHotword t

/-! ### Noise-gate VAD (`audio/vad/detector.py`, `audio/vad/utils.py`)

The detector reads frames, computes `r_inst = rms_int16(frame)` and then
uses only `r_inst` (plus the frame object itself, which it stores in the
pre-roll ring and the current-utterance list).  The embedding is therefore
polymorphic in the frame payload `α` and consumes `(frame, r_inst)` pairs;
`rms_int16` itself (a float `sqrt`) is characterized by `IsRmsOf` below.
Internal float state (`floor_rms`, `env_rms`, thresholds) is exact `ℚ`. -/

/-- `clamp_floor(x) = max(floor_min, min(floor_max, x))`. -/
def clamp_floor (floorMin floorMax x : ℚ) : ℚ := max floorMin (min floorMax x)

/-- `ema(value, prev, alpha) = alpha*prev + (1-alpha)*value`. -/
def ema (value prev alpha : ℚ) : ℚ := alpha * prev + (1 - alpha) * value

/-- `threshold(floor_rms) = max(threshold_abs, floor_rms*threshold_mult)`. -/
def vad_threshold (thresholdAbs thresholdMult floorRms : ℚ) : ℚ :=
  max thresholdAbs (floorRms * thresholdMult)

/-- `r = rms_int16 x`, i.e. `r = sqrt(mean(xᵢ²))` (0 for an empty frame),
stated squarely so it lives in `ℚ`: `r ≥ 0` and
`r² · len x = Σ xᵢ²`. -/
def IsRmsOf (x : List ℤ) (r : ℚ) : Prop :=
  if x.length = 0 then r = 0
  else 0 ≤ r ∧ r ^ 2 * x.length = ((x.map fun v => ((v : ℚ)) ^ 2).sum)

/-- `frame_ms = int((chunk / sample_rate) * 1000)`. -/
def frame_ms (chunk sampleRate : ℕ) : ℕ :=
  Int.toNat ⌊((chunk : ℚ) / (sampleRate : ℚ)) * 1000⌋

/-- `pre_frames = max(0, int(pre_roll_ms / frame_ms))`. -/
def pre_frames (preRollMs frameMs : ℕ) : ℕ :=
  Int.toNat ⌊(preRollMs : ℚ) / (frameMs : ℚ)⌋

/-- `attack_needed = max(1, int(attack_ms / frame_ms))`. -/
def attack_needed (attackMs frameMs : ℕ) : ℕ :=
  max 1 (Int.toNat ⌊(attackMs : ℚ) / (frameMs : ℚ)⌋)

/-- `release_needed = max(1, int(release_ms / frame_ms))`. -/
def release_needed (releaseMs frameMs : ℕ) : ℕ :=
  max 1 (Int.toNat ⌊(releaseMs : ℚ) / (frameMs : ℚ)⌋)

/-- `hangover_frames = max(0, int(hangover_ms / frame_ms))`. -/
def hangover_frames_of (hangoverMs frameMs : ℕ) : ℕ :=
  Int.toNat ⌊(hangoverMs : ℚ) / (frameMs : ℚ)⌋

/-- `max_frames = int((max_utterance_sec * 1000) / frame_ms)`. -/
def max_frames_of (maxUtteranceSec : ℚ) (frameMs : ℕ) : ℕ :=
  Int.toNat ⌊maxUtteranceSec * 1000 / (frameMs : ℚ)⌋

/-- The configuration and derived counts `utterances()` reads at entry
(`alpha_floor = 0.98` and `alpha_env = 0.85` are set in `__init__`). -/
structure VadCfg where
  preFrames : ℕ
  attackNeeded : ℕ
  releaseNeeded : ℕ
  hangoverFrames : ℕ
  maxFrames : ℕ
  minUtteranceMs : ℕ
  frameMs : ℕ
  thresholdAbs : ℚ
  thresholdMult : ℚ
  floorAdaptMargin : ℚ
  alphaFloor : ℚ
  alphaEnv : ℚ
  useInstantRms : Bool
  floorMin : ℚ
  floorMax : ℚ
deriving Repr, DecidableEq

/-- The mutable state of one iteration of the `utterances()` loop. -/
structure VadState (α : Type) where
  prebuf : List α
  floorRms : ℚ
  envRms : ℚ
  inSpeech : Bool
  aboveCnt : ℕ
  belowCnt : ℕ
  hangover : ℕ
  cur : List α
deriving Repr

/-- `collections.deque(maxlen=cap).append`: newest at the right, oldest
dropped once the capacity is exceeded (a `maxlen=0` deque stays empty). -/
def ringPush (cap : ℕ) (x : α) (l : List α) : List α :=
  if cap = 0 then []
  else
    let l2 := l ++ [x]
    if l2.length ≤ cap then l2 else l2.drop (l2.length - cap)

/-- The trigger signal: `r_inst ≥ thr` when
`vad_use_instant_rms_for_trigger` else `env_rms ≥ thr` (with `env_rms`
already updated this frame). -/
def vadIsAbove (cfg : VadCfg) (floorRms envAfter r : ℚ) : Bool :=
  if cfg.useInstantRms then
    decide (vad_threshold cfg.thresholdAbs cfg.thresholdMult floorRms ≤ r)
  else decide (vad_threshold cfg.thresholdAbs cfg.thresholdMult floorRms ≤ envAfter)

/-- One iteration of the `while True` body of `utterances()` on frame
`frame` with `r = rms_int16(frame)`.  Returns the next state, the
emitted (yielded) utterance if any, and whether a segment was finalized
(`stop_reason is not None`), in the source's exact update order: ring push;
envelope update; threshold from the current floor; trigger; idle-time floor
adaptation; then the state machine. -/
def vadStep (cfg : VadCfg) (st : VadState α) (frame : α) (r : ℚ) :
    VadState α × Option (List α) × Bool :=
  let prebuf2 := ringPush cfg.preFrames frame st.prebuf
  let env2 := ema r st.envRms cfg.alphaEnv
  let thr := vad_threshold cfg.thresholdAbs cfg.thresholdMult st.floorRms
  let isAbove := vadIsAbove cfg st.floorRms env2 r
  let floor2 :=
    if st.inSpeech = false ∧ r < cfg.floorAdaptMargin * thr then
      clamp_floor cfg.floorMin cfg.floorMax (ema r st.floorRms cfg.alphaFloor)
    else st.floorRms
  if st.inSpeech = false then
    let above2 := if isAbove then st.aboveCnt + 1 else 0
    if cfg.attackNeeded ≤ above2 then
      ({ prebuf := prebuf2, floorRms := floor2, envRms := env2, inSpeech := true,
         aboveCnt := above2, belowCnt := 0, hangover := 0,
         cur := prebuf2 ++ [frame] }, none, false)
    else
      ({ st with prebuf := prebuf2, floorRms := floor2, envRms := env2,
                 aboveCnt := above2 }, none, false)
  else
    let cur2 := st.cur ++ [frame]
    let bh :=
      if isAbove then ((0 : ℕ), cfg.hangoverFrames)
      else if 0 < st.hangover then ((0 : ℕ), st.hangover - 1)
      else (st.belowCnt + 1, st.hangover)
    if cfg.releaseNeeded ≤ bh.1 ∨ cfg.maxFrames ≤ cur2.length then
      let uttMs := cur2.length * cfg.frameMs
      let emitted := if cfg.minUtteranceMs ≤ uttMs then some cur2 else none
      ({ prebuf := prebuf2, floorRms := floor2, envRms := env2, inSpeech := false,
         aboveCnt := 0, belowCnt := 0, hangover := 0, cur := [] }, emitted, true)
    else
      ({ st with prebuf := prebuf2, floorRms := floor2, envRms := env2,
                 belowCnt := bh.1, hangover := bh.2, cur := cur2 }, none, false)

/-- A run of `utterances()` over the frames actually read before the
source stopped: the list of yielded utterances, each a list of frames. -/
def vadRun (cfg : VadCfg) (st : VadState α) : List (α × ℚ) → List (List α)
  | [] => []
  | (f, r) :: rest =>
    let s := vadStep cfg st f r
    match s.2.1 with
    | some u => u :: vadRun cfg s.1 rest
    | none => vadRun cfg s.1 rest

/-- The state at the top of the `utterances()` loop: empty ring, empty
current list, `Idle`, counters zero, with the floor/envelope left from
construction or calibration. -/
def initVadState (floor0 env0 : ℚ) : VadState α :=
  ⟨[], floor0, env0, false, 0, 0, 0, []⟩

/-- Input frames tagged with their position in the stream, for tracking
frame identity across utterances. -/
def enumFrom (n : ℕ) : List ℚ → List (ℕ × ℚ)
  | [] => []
  | r :: rest => (n, r) :: enumFrom (n + 1) rest

/-- A run observed at the level of frame positions: frame `i` of the
stream is represented by the index `i`. -/
def vadRunIdx (cfg : VadCfg) (floor0 env0 : ℚ) (rs : List ℚ) : List (List ℕ) :=
  vadRun cfg (initVadState floor0 env0) (enumFrom 0 rs)

/-! ### VAD calibration (`NoiseGateVAD.calibrate`) -/

/-- `np.percentile(l, q)` with the default linear interpolation: sort
ascending, take `h = (n-1)·q/100`, and interpolate between the
surrounding order statistics. -/
def percentile (q : ℚ) (l : List ℚ) : ℚ :=
  let s := l.mergeSort (fun a b => decide (a ≤ b))
  let n := s.length
  if n = 0 then 0
  else
    let h : ℚ := (n - 1) * q / 100
    let k := Int.toNat ⌊h⌋
    if k + 1 < n then s.getD k 0 + (h - k) * (s.getD (k + 1) 0 - s.getD k 0)
    else s.getD (n - 1) 0

/-- `n_frames = max(1, int((seconds * 1000) / frame_ms))`. -/
def n_calib_frames (seconds : ℚ) (frameMs : ℕ) : ℕ :=
  max 1 (Int.toNat ⌊seconds * 1000 / (frameMs : ℚ)⌋)

/-- `calibrate(seconds)`: read `n_frames` frames from the source, collect
their RMS values, set `floor_rms` to the clamped 10th percentile and
`env_rms` to the same value.  The stream of per-frame RMS values is
explicit; the result is `(floor_rms, env_rms, frames left unread)`. -/
def calibrate (seconds : ℚ) (frameMs : ℕ) (floorMin floorMax : ℚ)
    (rmsStream : List ℚ) : ℚ × ℚ × List ℚ :=
  let n := n_calib_frames seconds frameMs
  let floors := rmsStream.take n
  let fl := clamp_floor floorMin floorMax (percentile 10 floors)
  (fl, fl, rmsStream.drop n)

/-! ### Separation predicate and concrete instances used by the theorems -/

/-- Utterances listed in emission order, separated beyond the pre-roll:
each utterance's frames beyond its first `pre + 1` positions lie strictly
above a running bound that dominates every earlier utterance. -/
def SepFrom (pre : ℕ) : ℕ → List (List ℕ) → Prop
  | _, [] => True
  | b, U :: rest =>
    (∀ x ∈ U.drop (pre + 1), b < x) ∧
    ∃ e, b ≤ e ∧ (∀ x ∈ U, x ≤ e) ∧ SepFrom pre e rest

/-- A small, legal VAD configuration (64 ms frames, instant-RMS trigger,
attack 1 frame, release 2 frames, pre-roll 4 frames, no minimum length)
used to exhibit frame re-use across utterances. -/
def cfgShare : VadCfg :=
  ⟨4, 1, 2, 0, 100, 0, 64, 200, 3, 9/10, 49/50, 17/20, true, 20, 4000⟩

/-- Configuration with the default 250 ms minimum utterance length over
80 ms frames (chunk 4 at 50 Hz), for the minimum-length witness. -/
def cfgMinLen : VadCfg :=
  ⟨1, 1, 2, 0, 100, 250, 80, 200, 3, 9/10, 49/50, 17/20, true, 20, 4000⟩

/-- A three-frame input for `cfgMinLen`: one loud frame triggers, two
quiet frames release; the four-frame utterance lasts 320 ms ≥ 250 ms. -/
def traceMinLen : List (List ℤ × ℚ) :=
  [(List.replicate 4 3000, 3000), (List.replicate 4 0, 0), (List.replicate 4 0, 0)]

/-- Configuration for the trigger-frame duplication witness: pre-roll
capacity 2, attack 1. -/
def cfgTrig : VadCfg :=
  ⟨2, 1, 2, 0, 100, 0, 64, 200, 3, 9/10, 49/50, 17/20, true, 20, 4000⟩

/-- A live state in which a snapshot with `seq = 5` has been published. -/
def liveSeq5 : LiveState := { initialLiveState with seqCounter := 5, seq := some 5 }

/-! ## Theorems -/

theorem applyStatusCalls_seq (calls : List (Option Bool × Option Bool × ℚ))
    (st : LiveState) :
    (applyStatusCalls calls st).seqCounter = st.seqCounter ∧
    (applyStatusCalls calls st).seq = st.seq := by
  induction calls generalizing st with
  | nil => exact ⟨rfl, rfl⟩
  | cons c rest ih =>
    have h := ih (set_status c.1 c.2.1 c.2.2 st)
    have hs : (set_status c.1 c.2.1 c.2.2 st).seqCounter = st.seqCounter ∧
        (set_status c.1 c.2.1 c.2.2 st).seq = st.seq := by
      unfold set_status
      split <;> exact ⟨rfl, rfl⟩
    simpa [applyStatusCalls, hs.1, hs.2] using h

/-- C5: the live-state sequence number advances only through snapshot
publication: `set_snapshot` increments the counter by exactly one and
publishes it as `seq`; `set_status` (and any stretch of status-only
calls) leaves both untouched, so two snapshots published with only
status traffic in between carry consecutive sequence numbers. -/
theorem live_seq_only_snapshot (t r : Option String) (c u : Option ℤ)
    (w : Option String) (now : ℚ) (rec proc : Option Bool) (now2 : ℚ)
    (t2 r2 : Option String) (c2 u2 : Option ℤ) (w2 : Option String) (now3 : ℚ)
    (calls : List (Option Bool × Option Bool × ℚ)) (st : LiveState) :
    (set_snapshot t r c u w now st).seqCounter = st.seqCounter + 1 ∧
    (set_snapshot t r c u w now st).seq = some (st.seqCounter + 1) ∧
    (set_status rec proc now2 st).seqCounter = st.seqCounter ∧
    (set_status rec proc now2 st).seq = st.seq ∧
    (set_snapshot t2 r2 c2 u2 w2 now3
        (applyStatusCalls calls (set_snapshot t r c u w now st))).seq =
      some (st.seqCounter + 1 + 1) := by
  refine ⟨rfl, rfl, ?_, ?_, ?_⟩
  · unfold set_status; split <;> rfl
  · unfold set_status; split <;> rfl
  · have h := applyStatusCalls_seq calls (set_snapshot t r c u w now st)
    simp only [set_snapshot] at h
    simp [set_snapshot, h.1]

/-- C6 (code bug): `wait_next`'s loop only re-checks the sequence
condition, so a waiter with `since = 5` on a state whose published `seq`
is 5 stays blocked across a `set_status` wake-up (a recording flip),
contrary to the function's own docstring and the spec; and with
`since = None` before any snapshot was ever published (`seq` is `None`)
it blocks instead of returning immediately. -/
theorem wait_next_misses_status_flip :
    wait_next (some 5) liveSeq5 [set_status (some true) none 1 liveSeq5] = none ∧
    (set_status (some true) none 1 liveSeq5).recording = true ∧
    wait_next none initialLiveState [] = none := by
  refine ⟨by decide, by decide, by decide⟩

/-- C9 counterexample: two calls of `process_utterance` with different
audio and sample rates still choose the same WAV path, because step 1
uses the fixed name `temp_path("live_utt.wav")`. -/
theorem process_utterance_same_path_cex :
    process_utterance_wav_path "temp" [0] 16000 =
      process_utterance_wav_path "temp" [1, 2, 3] 8000 ∧
    ([0] : List ℤ) ≠ [1, 2, 3] ∧ (16000 : ℕ) ≠ 8000 := by
  refine ⟨rfl, by decide, by decide⟩

/-- C9 (amended): the temp WAV path of `process_utterance` is
deterministic — every call, whatever its pcm and sample rate, writes to
`TEMP_DIR/live_utt.wav` (the file is overwritten each cycle), so paths
are shared, not unique, across calls. -/
theorem process_utterance_path_deterministic (root : String) (pcm : List ℤ)
    (sr : ℕ) :
    process_utterance_wav_path root pcm sr = root ++ "/" ++ "live_utt.wav" := rfl

/-- C3 counterexample: with 64 ms frames and `seconds = 1.5`, `calibrate`
reads `max(1, int(1500/64)) = 23` frames — one frame of a 24-frame stream
is left unread — while `ceil(1500/64) = 24`. -/
theorem calibrate_count_not_ceil_cex :
    n_calib_frames (3/2) 64 = 23 ∧
    (⌈((3/2 : ℚ) * 1000) / 64⌉ : ℤ) = 24 ∧
    (calibrate (3/2) 64 20 4000 (List.replicate 24 0)).2.2.length = 1 := by
  refine ⟨by norm_num [n_calib_frames] <;> omega, ?_, ?_⟩
  · rw [Int.ceil_eq_iff] <;> norm_num
  · norm_num [calibrate, n_calib_frames] <;> omega

/-- C3 (amended): `calibrate(seconds)` reads exactly
`N = max(1, floor(seconds·1000/frame_ms))` frames (floor, not ceiling),
sets `floor_rms` to the clamped 10th percentile of their RMS values, and
sets `env_rms` to the same value. -/
theorem calibrate_spec (sec : ℚ) (fm : ℕ) (fmin fmax : ℚ) (rs : List ℚ)
    (h : n_calib_frames sec fm ≤ rs.length) :
    (calibrate sec fm fmin fmax rs).2.2 = rs.drop (n_calib_frames sec fm) ∧
    rs.length - (calibrate sec fm fmin fmax rs).2.2.length = n_calib_frames sec fm ∧
    (calibrate sec fm fmin fmax rs).1 =
      clamp_floor fmin fmax (percentile 10 (rs.take (n_calib_frames sec fm))) ∧
    (calibrate sec fm fmin fmax rs).2.1 = (calibrate sec fm fmin fmax rs).1 ∧
    n_calib_frames sec fm = max 1 (Int.toNat ⌊sec * 1000 / (fm : ℚ)⌋) := by
  refine ⟨rfl, ?_, rfl, rfl, rfl⟩
  simp only [calibrate, List.length_drop]
  omega

/-- Closed witness for `calibrate_spec` at `seconds = 1.5`, 64 ms frames
and a 23-element RMS stream. -/
theorem calibrate_spec_witness :
    (n_calib_frames (3/2) 64 ≤ (List.replicate 23 (0:ℚ)).length) ∧
    ((calibrate (3/2) 64 20 4000 (List.replicate 23 0)).2.2 =
        (List.replicate 23 (0:ℚ)).drop (n_calib_frames (3/2) 64) ∧
      (List.replicate 23 (0:ℚ)).length -
          (calibrate (3/2) 64 20 4000 (List.replicate 23 0)).2.2.length =
        n_calib_frames (3/2) 64 ∧
      (calibrate (3/2) 64 20 4000 (List.replicate 23 0)).1 =
        clamp_floor 20 4000
          (percentile 10 ((List.replicate 23 (0:ℚ)).take (n_calib_frames (3/2) 64))) ∧
      (calibrate (3/2) 64 20 4000 (List.replicate 23 0)).2.1 =
        (calibrate (3/2) 64 20 4000 (List.replicate 23 0)).1 ∧
      n_calib_frames (3/2) 64 = max 1 (Int.toNat ⌊(3/2 : ℚ) * 1000 / (64 : ℚ)⌋)) :=
  ⟨by norm_num [n_calib_frames],
    calibrate_spec (3/2) 64 20 4000 (List.replicate 23 0) (by norm_num [n_calib_frames])⟩

/-- C4 counterexample: with the default 64 ms frames, the code's derived
counts are floors, not ceilings (`attack_needed = max(1, int(120/64)) = 1`
but `ceil(120/64) = 2`; `release_needed = 5` but `ceil(350/64) = 6`), and
`max_frames` has no lower guard: `max_utterance_sec = 0.01` gives 0. -/
theorem vad_derived_counts_cex :
    attack_needed 120 64 = 1 ∧ (⌈(120 : ℚ) / 64⌉ : ℤ) = 2 ∧
    release_needed 350 64 = 5 ∧ (⌈(350 : ℚ) / 64⌉ : ℤ) = 6 ∧
    max_frames_of (1/100) 64 = 0 := by
  refine ⟨by norm_num [attack_needed] <;> omega, ?_,
    by norm_num [release_needed] <;> omega, ?_,
    by norm_num [max_frames_of] <;> omega⟩
  · rw [Int.ceil_eq_iff] <;> norm_num
  · rw [Int.ceil_eq_iff] <;> norm_num

/-- C4 (amended): the derived frame counts are
`attack_needed = max(1, ⌊attack_ms/frame_ms⌋)` and
`release_needed = max(1, ⌊release_ms/frame_ms⌋)` (equal to the natural
division of the millisecond values), both at least 1, while
`max_frames = ⌊max_utterance_sec·1000/frame_ms⌋` carries no lower
bound. -/
theorem vad_derived_counts (a r f : ℕ) (m : ℚ) (hf : 0 < f) :
    attack_needed a f = max 1 (a / f) ∧
    release_needed r f = max 1 (r / f) ∧
    1 ≤ attack_needed a f ∧ 1 ≤ release_needed r f ∧
    max_frames_of m f = Int.toNat ⌊m * 1000 / (f : ℚ)⌋ := by
  have hdiv : ∀ n : ℕ, Int.toNat ⌊(n : ℚ) / (f : ℚ)⌋ = n / f := by
    intro n
    rw [Int.floor_toNat, Nat.floor_div_nat]
    simp
  exact ⟨by rw [attack_needed, hdiv], by rw [release_needed, hdiv],
    le_max_left _ _, le_max_left _ _, rfl⟩

/-- Closed witness for `vad_derived_counts` at the default configuration
(`attack 120 ms`, `release 350 ms`, `max_utterance 30 s`, 64 ms frames). -/
theorem vad_derived_counts_witness :
    (0 < 64) ∧
    (attack_needed 120 64 = max 1 (120 / 64) ∧
      release_needed 350 64 = max 1 (350 / 64) ∧
      1 ≤ attack_needed 120 64 ∧ 1 ≤ release_needed 350 64 ∧
      max_frames_of 30 64 = Int.toNat ⌊(30 : ℚ) * 1000 / (64 : ℚ)⌋) :=
  ⟨by decide, vad_derived_counts 120 350 64 30 (by decide)⟩

theorem ringPush_getLast {α : Type} (cap : ℕ) (x : α) (l : List α)
    (hcap : 1 ≤ cap) : (ringPush cap x l).getLast? = some x := by
  unfold ringPush
  rw [if_neg (by omega)]
  dsimp only
  split
  · exact List.getLast?_concat l
  · rw [List.drop_append_of_le_length (by simp; omega), List.getLast?_concat]

/-- C10: at a trigger with pre-roll capacity at least one frame, the
frame that completes the attack count appears twice at the head of the
new utterance: `cur` is initialized to the ring snapshot (whose newest
element is that frame, pushed before the state-machine step) followed by
the frame appended explicitly. -/
theorem vad_trigger_frame_duplicated {α : Type} (cfg : VadCfg) (st : VadState α)
    (frame : α) (r : ℚ) (hIdle : st.inSpeech = false) (hCap : 1 ≤ cfg.preFrames)
    (hTrig : cfg.attackNeeded ≤
      (if vadIsAbove cfg st.floorRms (ema r st.envRms cfg.alphaEnv) r then
        st.aboveCnt + 1 else 0)) :
    (vadStep cfg st frame r).1.cur =
      ringPush cfg.preFrames frame st.prebuf ++ [frame] ∧
    (ringPush cfg.preFrames frame st.prebuf).getLast? = some frame := by
  refine ⟨?_, ringPush_getLast cfg.preFrames frame st.prebuf hCap⟩
  unfold vadStep
  rw [if_pos hIdle]
  dsimp only
  rw [if_pos hTrig]

/-- Closed witness for `vad_trigger_frame_duplicated`: a loud frame
(RMS 3000) triggers `cfgTrig` from the idle start state. -/
theorem vad_trigger_frame_duplicated_witness :
    ((initVadState 50 0 : VadState ℕ).inSpeech = false ∧ 1 ≤ cfgTrig.preFrames ∧
      cfgTrig.attackNeeded ≤
        (if vadIsAbove cfgTrig (initVadState 50 0 : VadState ℕ).floorRms
            (ema 3000 (initVadState 50 0 : VadState ℕ).envRms cfgTrig.alphaEnv) 3000 then
          (initVadState 50 0 : VadState ℕ).aboveCnt + 1 else 0)) ∧
    ((vadStep cfgTrig (initVadState 50 0 : VadState ℕ) 7 3000).1.cur =
        ringPush cfgTrig.preFrames 7 (initVadState 50 0 : VadState ℕ).prebuf ++ [7] ∧
      (ringPush cfgTrig.preFrames 7 (initVadState 50 0 : VadState ℕ).prebuf).getLast? =
        some 7) :=
  ⟨⟨rfl, by norm_num [cfgTrig],
      by norm_num [cfgTrig, initVadState, vadIsAbove, vad_threshold, ema]⟩,
    vad_trigger_frame_duplicated cfgTrig (initVadState 50 0) 7 3000 rfl
      (by norm_num [cfgTrig])
      (by norm_num [cfgTrig, initVadState, vadIsAbove, vad_threshold, ema])⟩

theorem toLowerA_idem (c : Char) : toLowerA (toLowerA c) = toLowerA c := by
  unfold toLowerA
  split
  · rename_i h
    have hlt : c.toNat + 32 < 55296 := by omega
    have hv : (Char.ofNat (c.toNat + 32)).toNat = c.toNat + 32 := by
      unfold Char.ofNat
      rw [dif_pos (Or.inl hlt : (c.toNat + 32).isValidChar)]
      rfl
    rw [if_neg (by omega)]
  · rfl

theorem lowerText_idem (t : List Char) : lowerText (lowerText t) = lowerText t := by
  simp only [lowerText, List.map_map]
  exact List.map_congr_left fun c _ => toLowerA_idem c

/-- C8: `intent_shutdown(text)` is true exactly when the shutdown-phrase
search succeeds and the negation search fails — so any negation token
(`don't`, `do not`, `not now`, `cancel`, `false alarm`) forces `False`
even with a shutdown phrase present; matching is case-insensitive
(already-lowercased text decides identically); and the word-boundary
regexes do not fire inside unrelated longer tokens, as the concrete
probes show. -/
theorem intent_shutdown_spec :
    (∀ t : List Char, intent_shutdown t = (hasShutdownHotword t && !hasNegation t)) ∧
    (∀ t : List Char, intent_shutdown (lowerText t) = intent_shutdown t) ∧
    intent_shutdown "Please SHUT DOWN now".toList = true ∧
    intent_shutdown "do not shut down".toList = false ∧
    intent_shutdown "don\x27t shut down".toList = false ∧
    intent_shutdown "cancel the shutdown".toList = false ∧
    intent_shutdown "the exits are that way".toList = false ∧
    intent_shutdown "requite them".toList = false ∧
    intent_shutdown "killserver".toList = false ∧
    intent_shutdown "kill the old server".toList = true ∧
    intent_shutdown "STOP LISTENING".toList = true := by
  refine ⟨?_, ?_, by decide, by decide, by decide, by decide, by decide,
    by decide, by decide, by decide, by decide⟩
  · intro t
    unfold intent_shutdown
    cases h : hasNegation t <;> simp [h]
  · intro t
    unfold intent_shutdown hasNegation hasShutdownHotword
    rw [lowerText_idem]

theorem int16_bytes_roundtrip (v : ℤ) (h1 : -32768 ≤ v) (h2 : v < 32768) :
    bytesToInt16s (int16ToBytes v) = [v] := by
  have hsplit : (v % 65536).toNat % 256 + 256 * ((v % 65536).toNat / 256) =
      (v % 65536).toNat := Nat.mod_add_div _ _
  simp only [int16ToBytes, bytesToInt16s, hsplit, List.cons.injEq, and_true]
  split <;> omega

theorem bytesToInt16s_pair_append (b0 b1 : ℕ) (rest : List ℕ) :
    bytesToInt16s (b0 :: b1 :: rest) = bytesToInt16s [b0, b1] ++ bytesToInt16s rest := by
  simp [bytesToInt16s]

theorem bytesToInt16s_flatMap (x : List ℤ)
    (hx : ∀ v ∈ x, -32768 ≤ v ∧ v < 32768) :
    bytesToInt16s (x.flatMap int16ToBytes) = x := by
  induction x with
  | nil => rfl
  | cons v rest ih =>
    have hv := hx v (List.mem_cons_self v rest)
    have hr := ih fun w hw => hx w (List.mem_cons_of_mem v hw)
    have h1 := int16_bytes_roundtrip v hv.1 hv.2
    rw [List.flatMap_cons,
      show int16ToBytes v ++ rest.flatMap int16ToBytes =
        (v % 65536).toNat % 256 :: (v % 65536).toNat / 256 ::
          rest.flatMap int16ToBytes from rfl,
      bytesToInt16s_pair_append,
      show bytesToInt16s [(v % 65536).toNat % 256, (v % 65536).toNat / 256] =
        bytesToInt16s (int16ToBytes v) from rfl,
      h1, hr, List.singleton_append]

/-- C7: writing an int16 sample vector with
`write_wav_int16_mono(path, x, sr, None)` and reading the file back
yields exactly `x` at rate `sr`; at 16 kHz, `wav_to_float32_mono_16k`
returns the same-length vector of samples divided by 32768; and linear
resampling from 16 kHz to 16 kHz is the identity. -/
theorem wav_write_read_roundtrip (x : List ℤ) (sr : ℕ)
    (hx : ∀ v ∈ x, -32768 ≤ v ∧ v < 32768) :
    read_back (write_wav_int16_mono x sr) = (x, sr) ∧
    wav_to_float32_mono_16k (write_wav_int16_mono x 16000) =
      .ok (x.map fun v : ℤ => (v : ℚ) / 32768) ∧
    (x.map fun v : ℤ => (v : ℚ) / 32768).length = x.length ∧
    ∀ a : List ℚ, linear_resample a 16000 16000 = a := by
  have hdec : bytesToInt16s (x.flatMap int16ToBytes) = x := bytesToInt16s_flatMap x hx
  refine ⟨?_, ?_, by rw [List.length_map], fun a => by simp [linear_resample]⟩
  · simp [read_back, write_wav_int16_mono, hdec]
  · simp [wav_to_float32_mono_16k, write_wav_int16_mono, hdec]

/-- Closed witness for `wav_write_read_roundtrip` on the sample vector
`[0, 1, -1, 32767, -32768]` at 16 kHz. -/
theorem wav_write_read_roundtrip_witness :
    (∀ v ∈ ([0, 1, -1, 32767, -32768] : List ℤ), -32768 ≤ v ∧ v < 32768) ∧
    (read_back (write_wav_int16_mono [0, 1, -1, 32767, -32768] 16000) =
        ([0, 1, -1, 32767, -32768], 16000) ∧
      wav_to_float32_mono_16k (write_wav_int16_mono [0, 1, -1, 32767, -32768] 16000) =
        .ok (([0, 1, -1, 32767, -32768] : List ℤ).map fun v : ℤ => (v : ℚ) / 32768) ∧
      (([0, 1, -1, 32767, -32768] : List ℤ).map fun v : ℤ => (v : ℚ) / 32768).length =
        ([0, 1, -1, 32767, -32768] : List ℤ).length ∧
      ∀ a : List ℚ, linear_resample a 16000 16000 = a) :=
  ⟨by decide, wav_write_read_roundtrip [0, 1, -1, 32767, -32768] 16000 (by decide)⟩

theorem mem_ringPush {α : Type} {cap : ℕ} {x y : α} {l : List α}
    (h : y ∈ ringPush cap x l) : y ∈ l ∨ y = x := by
  unfold ringPush at h
  split at h
  · simp at h
  · dsimp only at h
    split at h
    · simpa using h
    · have := List.mem_of_mem_drop h
      simpa using this

theorem ringPush_length_le {α : Type} (cap : ℕ) (x : α) (l : List α)
    (h : l.length ≤ cap) : (ringPush cap x l).length ≤ cap := by
  unfold ringPush
  split
  · simp
  · dsimp only
    split
    · assumption
    · simp only [List.length_drop]
      omega

theorem vadStep_shape {α : Type} (cfg : VadCfg) (st : VadState α) (f : α) (r : ℚ) :
    (vadStep cfg st f r).1.prebuf = ringPush cfg.preFrames f st.prebuf ∧
    (((vadStep cfg st f r).2.1 = none ∧
       ((vadStep cfg st f r).1.cur = [] ∨
        (vadStep cfg st f r).1.cur = ringPush cfg.preFrames f st.prebuf ++ [f] ∨
        (vadStep cfg st f r).1.cur = st.cur ++ [f] ∨
        (vadStep cfg st f r).1.cur = st.cur)) ∨
     ((vadStep cfg st f r).2.1 = some (st.cur ++ [f]) ∧
       cfg.minUtteranceMs ≤ (st.cur ++ [f]).length * cfg.frameMs ∧
       (vadStep cfg st f r).1.cur = [])) := by
  simp only [vadStep]
  split_ifs with h1 h2 h3 h4 <;> simp_all

theorem vadStep_finalize {α : Type} (cfg : VadCfg) (st : VadState α) (f : α)
    (r : ℚ) (h : (vadStep cfg st f r).2.2 = true) :
    (vadStep cfg st f r).1.inSpeech = false ∧
    (vadStep cfg st f r).1.aboveCnt = 0 ∧ (vadStep cfg st f r).1.belowCnt = 0 ∧
    (vadStep cfg st f r).1.hangover = 0 ∧ (vadStep cfg st f r).1.cur = [] ∧
    ((vadStep cfg st f r).2.1 = none ↔
      (st.cur ++ [f]).length * cfg.frameMs < cfg.minUtteranceMs) := by
  simp only [vadStep] at h ⊢
  split_ifs at h ⊢ with h1 h2 h3 h4 <;> simp_all <;> omega

theorem vadStep_frames {α : Type} {P : α → Prop} (cfg : VadCfg) (st : VadState α)
    (f : α) (r : ℚ) (hp : ∀ g ∈ st.prebuf, P g) (hc : ∀ g ∈ st.cur, P g)
    (hf : P f) :
    (∀ g ∈ (vadStep cfg st f r).1.prebuf, P g) ∧
    (∀ g ∈ (vadStep cfg st f r).1.cur, P g) ∧
    (∀ u, (vadStep cfg st f r).2.1 = some u → ∀ g ∈ u, P g) := by
  obtain ⟨hpre, hdisj⟩ := vadStep_shape cfg st f r
  have hring : ∀ g ∈ ringPush cfg.preFrames f st.prebuf, P g := by
    intro g hg
    rcases mem_ringPush hg with h | h
    · exact hp g h
    · exact h ▸ hf
  have hcurf : ∀ g ∈ st.cur ++ [f], P g := by
    intro g hg
    rcases List.mem_append.mp hg with h | h
    · exact hc g h
    · simp at h; exact h ▸ hf
  refine ⟨hpre ▸ hring, ?_, ?_⟩
  · rcases hdisj with ⟨_, hcur⟩ | ⟨_, _, hcur⟩
    · rcases hcur with h | h | h | h <;> rw [h]
      · simp
      · intro g hg
        rcases List.mem_append.mp hg with hh | hh
        · exact hring g hh
        · simp at hh; exact hh ▸ hf
      · exact hcurf
      · exact hc
    · rw [hcur]; simp
  · intro u hu
    rcases hdisj with ⟨hnone, _⟩ | ⟨hsome, _, _⟩
    · rw [hnone] at hu; cases hu
    · rw [hsome] at hu
      injection hu with h
      exact h ▸ hcurf

theorem vadRun_emit_bound {α : Type} (cfg : VadCfg) :
    ∀ (l : List (α × ℚ)) (st : VadState α) (U : List α), U ∈ vadRun cfg st l →
      cfg.minUtteranceMs ≤ U.length * cfg.frameMs := by
  intro l
  induction l with
  | nil => intro st U h; simp [vadRun] at h
  | cons p rest ih =>
    intro st U h
    obtain ⟨f, r⟩ := p
    simp only [vadRun] at h
    obtain ⟨_, hdisj⟩ := vadStep_shape cfg st f r
    rcases hdisj with ⟨hnone, _⟩ | ⟨hsome, hmin, _⟩
    · rw [hnone] at h
      exact ih _ U h
    · rw [hsome] at h
      simp only [List.mem_cons] at h
      rcases h with h | h
      · subst h; exact hmin
      · exact ih _ U h

theorem vadRun_frames {α : Type} {P : α → Prop} (cfg : VadCfg) :
    ∀ (l : List (α × ℚ)) (st : VadState α),
      (∀ g ∈ st.prebuf, P g) → (∀ g ∈ st.cur, P g) → (∀ p ∈ l, P p.1) →
      ∀ U ∈ vadRun cfg st l, ∀ g ∈ U, P g := by
  intro l
  induction l with
  | nil => intro st _ _ _ U h; simp [vadRun] at h
  | cons p rest ih =>
    intro st hp hc hl U h
    obtain ⟨f, r⟩ := p
    have hf : P f := hl (f, r) (List.mem_cons_self _ _)
    have hl2 : ∀ q ∈ rest, P q.1 := fun q hq => hl q (List.mem_cons_of_mem _ hq)
    obtain ⟨hp2, hc2, hem⟩ := vadStep_frames cfg st f r hp hc hf
    simp only [vadRun] at h
    cases hh : (vadStep cfg st f r).2.1 with
    | none =>
      rw [hh] at h
      exact ih _ hp2 hc2 hl2 U h
    | some u =>
      rw [hh] at h
      simp only [List.mem_cons] at h
      rcases h with h | h
      · subst h; exact hem U hh
      · exact ih _ hp2 hc2 hl2 U h

theorem length_flatten_const {α : Type} (U : List (List α)) (chunk : ℕ)
    (h : ∀ g ∈ U, g.length = chunk) : U.flatten.length = U.length * chunk := by
  rw [List.length_flatten, List.map_congr_left h]
  simp [List.map_const, mul_comm]

theorem frame_ms_le_exact (chunk sr : ℕ) (hsr : 0 < sr) :
    (frame_ms chunk sr : ℚ) ≤ (chunk : ℚ) * 1000 / (sr : ℚ) := by
  unfold frame_ms
  have h0 : (0 : ℚ) ≤ (chunk : ℚ) / (sr : ℚ) * 1000 := by positivity
  have hfl : ((⌊(chunk : ℚ) / (sr : ℚ) * 1000⌋ : ℤ) : ℚ) ≤
      (chunk : ℚ) / (sr : ℚ) * 1000 := Int.floor_le _
  have hnn : (0 : ℤ) ≤ ⌊(chunk : ℚ) / (sr : ℚ) * 1000⌋ := Int.floor_nonneg.mpr h0
  have heq : (chunk : ℚ) / (sr : ℚ) * 1000 = (chunk : ℚ) * 1000 / (sr : ℚ) := by
    ring
  have h3 : ((⌊(chunk : ℚ) / (sr : ℚ) * 1000⌋.toNat : ℕ) : ℚ) =
      ((⌊(chunk : ℚ) / (sr : ℚ) * 1000⌋ : ℤ) : ℚ) := by
    exact_mod_cast congrArg (fun z : ℤ => (z : ℚ)) (Int.toNat_of_nonneg hnn)
  rw [h3]
  linarith

/-- C2: every utterance yielded by `utterances()` satisfies
`len(U)·1000/sample_rate ≥ min_utterance_ms` (the code compares
`len(cur)·frame_ms ≥ min_utterance_ms` and `frame_ms ≤ chunk·1000/rate`),
and a finalized segment is dropped exactly when it is shorter, with the
state machine resetting to Idle (all counters zero, `cur` empty) either
way. -/
theorem vad_min_utterance_length (cfg : VadCfg) (chunk sr : ℕ) (floor0 env0 : ℚ)
    (l : List (List ℤ × ℚ)) (hsr : 0 < sr) (hfm : cfg.frameMs = frame_ms chunk sr)
    (hl : ∀ p ∈ l, p.1.length = chunk) :
    (∀ U ∈ vadRun cfg (initVadState floor0 env0) l,
      (cfg.minUtteranceMs : ℚ) ≤ (U.flatten.length : ℚ) * 1000 / (sr : ℚ)) ∧
    (∀ (st : VadState (List ℤ)) (f : List ℤ) (r : ℚ),
      (vadStep cfg st f r).2.2 = true →
      ((vadStep cfg st f r).1.inSpeech = false ∧
       (vadStep cfg st f r).1.aboveCnt = 0 ∧ (vadStep cfg st f r).1.belowCnt = 0 ∧
       (vadStep cfg st f r).1.hangover = 0 ∧ (vadStep cfg st f r).1.cur = [] ∧
       ((vadStep cfg st f r).2.1 = none ↔
         (st.cur ++ [f]).length * cfg.frameMs < cfg.minUtteranceMs))) := by
  constructor
  · intro U hU
    have hframes : ∀ g ∈ U, g.length = chunk := by
      refine vadRun_frames cfg l (initVadState floor0 env0) ?_ ?_ hl U hU
      · intro g hg; simp [initVadState] at hg
      · intro g hg; simp [initVadState] at hg
    have hmin : cfg.minUtteranceMs ≤ U.length * cfg.frameMs :=
      vadRun_emit_bound cfg l _ U hU
    have hflat : U.flatten.length = U.length * chunk :=
      length_flatten_const U chunk hframes
    have hfme : (cfg.frameMs : ℚ) ≤ (chunk : ℚ) * 1000 / (sr : ℚ) := by
      rw [hfm]; exact frame_ms_le_exact chunk sr hsr
    have hq : (cfg.minUtteranceMs : ℚ) ≤ (U.length : ℚ) * (cfg.frameMs : ℚ) := by
      calc (cfg.minUtteranceMs : ℚ) ≤ ((U.length * cfg.frameMs : ℕ) : ℚ) := by
            exact_mod_cast hmin
        _ = (U.length : ℚ) * (cfg.frameMs : ℚ) := by push_cast; ring
    have hstep : (U.length : ℚ) * (cfg.frameMs : ℚ) ≤
        (U.length : ℚ) * ((chunk : ℚ) * 1000 / (sr : ℚ)) := by
      apply mul_le_mul_of_nonneg_left hfme
      positivity
    have hfin : (U.length : ℚ) * ((chunk : ℚ) * 1000 / (sr : ℚ)) =
        (U.flatten.length : ℚ) * 1000 / (sr : ℚ) := by
      rw [hflat]
      push_cast
      ring
    linarith
  · intro st f r h
    exact vadStep_finalize cfg st f r h

/-- Closed witness for `vad_min_utterance_length`: chunk 4 at 50 Hz
(80 ms frames), `cfgMinLen` and the three-frame `traceMinLen`. -/
theorem vad_min_utterance_length_witness :
    (0 < 50 ∧ cfgMinLen.frameMs = frame_ms 4 50 ∧
      (∀ p ∈ traceMinLen, p.1.length = 4)) ∧
    ((∀ U ∈ vadRun cfgMinLen (initVadState 50 0) traceMinLen,
        (cfgMinLen.minUtteranceMs : ℚ) ≤ (U.flatten.length : ℚ) * 1000 / (50 : ℚ)) ∧
      (∀ (st : VadState (List ℤ)) (f : List ℤ) (r : ℚ),
        (vadStep cfgMinLen st f r).2.2 = true →
        ((vadStep cfgMinLen st f r).1.inSpeech = false ∧
         (vadStep cfgMinLen st f r).1.aboveCnt = 0 ∧
         (vadStep cfgMinLen st f r).1.belowCnt = 0 ∧
         (vadStep cfgMinLen st f r).1.hangover = 0 ∧
         (vadStep cfgMinLen st f r).1.cur = [] ∧
         ((vadStep cfgMinLen st f r).2.1 = none ↔
           (st.cur ++ [f]).length * cfgMinLen.frameMs < cfgMinLen.minUtteranceMs)))) :=
  ⟨⟨by decide, by norm_num [cfgMinLen, frame_ms] <;> omega, by decide⟩,
    vad_min_utterance_length cfgMinLen 4 50 50 0 traceMinLen (by decide)
      (by norm_num [cfgMinLen, frame_ms] <;> omega) (by decide)⟩

/-- C1 counterexample: running `utterances()` under `cfgShare` on the
six-frame RMS trace `[3000, 0, 0, 3000, 0, 0]` emits two utterances, and
stream frames 0, 1 and 2 appear in both — the pre-roll ring is not
cleared at emission and keeps receiving in-speech frames, so the second
trigger's `list(prebuf)` snapshot replays frames of the first utterance
(frame 1 shown explicitly). -/
theorem vad_frame_overlap_cex :
    vadRunIdx cfgShare 50 0 [3000, 0, 0, 3000, 0, 0] =
      [[0, 0, 1, 2], [0, 1, 2, 3, 3, 4, 5]] ∧
    (1 : ℕ) ∈ [0, 0, 1, 2] ∧ (1 : ℕ) ∈ ([0, 1, 2, 3, 3, 4, 5] : List ℕ) := by
  refine ⟨?_, by decide, by decide⟩
  norm_num [vadRunIdx, vadRun, vadStep, enumFrom, initVadState, cfgShare,
    ringPush, ema, vad_threshold, vadIsAbove, clamp_floor]

theorem mem_drop_append_singleton {β : Type} {l : List β} {a x : β} {k : ℕ}
    (h : x ∈ (l ++ [a]).drop k) : x ∈ l.drop k ∨ (x = a ∧ k ≤ l.length) := by
  rcases le_or_lt k l.length with hk | hk
  · rw [List.drop_append_of_le_length hk] at h
    rcases List.mem_append.mp h with h1 | h1
    · exact Or.inl h1
    · exact Or.inr ⟨by simpa using h1, hk⟩
  · rw [List.drop_eq_nil_of_le (by simp; omega)] at h
    cases h

theorem sepFrom_lower (pre : ℕ) :
    ∀ (out : List (List ℕ)) (b : ℕ), SepFrom pre b out →
      ∀ V ∈ out, ∀ y ∈ V.drop (pre + 1), b < y := by
  intro out
  induction out with
  | nil => intro b _ V hV; cases hV
  | cons U rest ih =>
    intro b h V hV
    obtain ⟨h1, e, hbe, hUe, hrest⟩ := h
    rcases List.mem_cons.mp hV with hV1 | hV2
    · exact hV1 ▸ h1
    · intro y hy
      exact lt_of_le_of_lt hbe (ih e hrest V hV2 y hy)

theorem sepFrom_pairwise (pre : ℕ) :
    ∀ (out : List (List ℕ)) (b : ℕ), SepFrom pre b out →
      out.Pairwise (fun U V => ∀ x ∈ U, x ∉ V.drop (pre + 1)) := by
  intro out
  induction out with
  | nil => intro b _; exact List.Pairwise.nil
  | cons U rest ih =>
    intro b h
    obtain ⟨h1, e, hbe, hUe, hrest⟩ := h
    refine List.Pairwise.cons ?_ (ih e hrest)
    intro V hV x hxU hxV
    have h2 := sepFrom_lower pre rest e hrest V hV x hxV
    have h3 := hUe x hxU
    omega

theorem vadRun_sepFrom (cfg : VadCfg) :
    ∀ (rs : List ℚ) (n b : ℕ) (st : VadState ℕ),
      b ≤ n →
      (∀ x ∈ st.prebuf, x < n) →
      st.prebuf.length ≤ cfg.preFrames →
      (∀ x ∈ st.cur, x < n) →
      (∀ x ∈ st.cur.drop (cfg.preFrames + 1), b < x) →
      (st.cur ≠ [] → b < n) →
      SepFrom cfg.preFrames b (vadRun cfg st (enumFrom n rs)) := by
  intro rs
  induction rs with
  | nil =>
    intro n b st _ _ _ _ _ _
    simp [enumFrom, vadRun, SepFrom]
  | cons r rest ih =>
    intro n b st hbn hpre hplen hcur hcurdrop hcurne
    simp only [enumFrom, vadRun]
    obtain ⟨hpre_eq, hdisj⟩ := vadStep_shape cfg st n r
    have hp2 : ∀ x ∈ (vadStep cfg st n r).1.prebuf, x < n + 1 := by
      rw [hpre_eq]
      intro x hx
      rcases mem_ringPush hx with h | h
      · exact Nat.lt_succ_of_lt (hpre x h)
      · omega
    have hplen2 : (vadStep cfg st n r).1.prebuf.length ≤ cfg.preFrames := by
      rw [hpre_eq]
      exact ringPush_length_le _ _ _ hplen
    have hringlen : (ringPush cfg.preFrames n st.prebuf).length ≤ cfg.preFrames :=
      ringPush_length_le _ _ _ hplen
    rcases hdisj with ⟨hnone, hcurcase⟩ | ⟨hsome, hmin, hcur2⟩
    · rw [hnone]
      dsimp only
      rcases hcurcase with hc | hc | hc | hc
      · exact ih (n + 1) b _ (by omega) hp2 hplen2
          (by rw [hc]; intro x hx; cases hx)
          (by rw [hc]; intro x hx; cases hx)
          (by rw [hc]; intro h; cases h rfl)
      · refine ih (n + 1) b _ (by omega) hp2 hplen2 ?_ ?_ (fun _ => by omega)
        · rw [hc]
          intro x hx
          rcases List.mem_append.mp hx with h | h
          · rcases mem_ringPush h with h2 | h2
            · exact Nat.lt_succ_of_lt (hpre x h2)
            · omega
          · simp at h; omega
        · rw [hc, List.drop_eq_nil_of_le (by simp; omega)]
          intro x hx
          cases hx
      · refine ih (n + 1) b _ (by omega) hp2 hplen2 ?_ ?_ (fun _ => by omega)
        · rw [hc]
          intro x hx
          rcases List.mem_append.mp hx with h | h
          · exact Nat.lt_succ_of_lt (hcur x h)
          · simp at h; omega
        · rw [hc]
          intro x hx
          rcases mem_drop_append_singleton hx with h | ⟨h, hlen⟩
          · exact hcurdrop x h
          · have hne : st.cur ≠ [] := by
              intro hnil
              rw [hnil] at hlen
              simp at hlen
            have hblt := hcurne hne
            omega
      · exact ih (n + 1) b _ (by omega) hp2 hplen2
          (fun x hx => Nat.lt_succ_of_lt (hcur x (hc ▸ hx)))
          (fun x hx => hcurdrop x (hc ▸ hx))
          (fun h => by have := hcurne (by rw [hc] at h; exact h); omega)
    · rw [hsome]
      dsimp only
      refine ⟨?_, n, hbn, ?_, ?_⟩
      · intro x hx
        rcases mem_drop_append_singleton hx with h | ⟨h, hlen⟩
        · exact hcurdrop x h
        · have hne : st.cur ≠ [] := by
            intro hnil
            rw [hnil] at hlen
            simp at hlen
          have hblt := hcurne hne
          omega
      · intro x hx
        rcases List.mem_append.mp hx with h | h
        · exact Nat.le_of_lt (hcur x h)
        · simp at h; omega
      · exact ih (n + 1) n _ (by omega) hp2 hplen2
          (by rw [hcur2]; intro x hx; cases hx)
          (by rw [hcur2]; intro x hx; cases hx)
          (by rw [hcur2]; intro h; cases h rfl)

/-- C1 (amended): frames can be shared between emitted utterances, but
only through the pre-roll prefix: in every run, any frame of an earlier
utterance that reappears in a later one lies within the later utterance's
first `preFrames + 1` elements (the `list(prebuf)` snapshot plus the
duplicated trigger frame).  Equivalently, the post-pre-roll bodies of
distinct utterances are pairwise disjoint; the original no-overlap claim
fails because the ring is not cleared at emission
(`vad_frame_overlap_cex`). -/
theorem vad_overlap_only_in_preroll (cfg : VadCfg) (floor0 env0 : ℚ)
    (rs : List ℚ) :
    (vadRunIdx cfg floor0 env0 rs).Pairwise
      (fun U V => ∀ x ∈ U, x ∉ V.drop (cfg.preFrames + 1)) := by
  have h := vadRun_sepFrom cfg rs 0 0 (initVadState floor0 env0)
    (le_refl 0)
    (by intro x hx; cases hx)
    (by simp [initVadState])
    (by intro x hx; cases hx)
    (by intro x hx; cases hx)
    (by intro h; cases h rfl)
  exact sepFrom_pairwise cfg.preFrames _ 0 h

end Jarvin
